import Mathlib

/-!
Verification of the fog-of-war state-synchronization and mask-compositing
subsystem.

Shallow embedding of:
* src/renderer/src/types/index.ts   — data model (FogOp, MapInfo, GameState, SaveFile, ...)
* src/renderer/src/pixi/FogLayer.ts — mask compositing engine (applyOps, applyOneOp, drawOp)
* src/main/gameState.ts             — authoritative state store (setMap, addFogOp, addFogOps, loadSave)
* src/main/index.ts                 — SSE distribution layer (broadcastSse, /state pull endpoint)
* src/renderer/src/components/MapCanvas.tsx — local prediction buffer (paintAt, pointer handlers)

Numbers that are IEEE doubles in the source are modelled as exact rationals;
the raster is modelled as an alpha function over the plane (the render texture
is its restriction to the pixel grid, so pixelwise equality of the functions
gives pixelwise equality of any raster sampled from them).
-/

set_option autoImplicit false

namespace FogOfWar

/-- A single fog operation, from the tagged union FogOp in
src/renderer/src/types/index.ts (reveal-circle, hide-circle,
reveal-polygon with a flat coordinate list, reset). -/
inductive FogOp where
  | revealCircle (x y radius : ℚ)
  | hideCircle (x y radius : ℚ)
  | revealPolygon (points : List ℚ)
  | reset
deriving DecidableEq

/-- Whether an operation is the reset operation (op.type === 'reset'). -/
def FogOp.isReset : FogOp → Bool
  | .reset => true
  | _ => false

/-- The mask raster: alpha (fog opacity) at each point of the plane. The
RenderTexture of FogLayer is this function sampled on its width × height
pixel grid; alpha 1 is fully fogged (opaque black), alpha 0 fully revealed. -/
def Mask : Type := ℚ × ℚ → ℚ

/-- FogLayer.fillBlack: the raster holding fully opaque black everywhere,
i.e. alpha 1 at every pixel.  This is also the state of a freshly
initialized fog texture (init calls fillBlack). -/
def fillBlackMask : Mask := fun _ => 1

/-- Squared Euclidean distance between two points. -/
def dist2 (p c : ℚ × ℚ) : ℚ := (p.1 - c.1) ^ 2 + (p.2 - c.2) ^ 2

/-- Alpha profile of the feather stamp of FogLayer.getFeatherTexture, as a
function of the squared distance dsq from the stamp center: the radial
gradient has stops (0, alpha 1), (0.65, alpha 1), (1, alpha 0), i.e. a fully
opaque plateau out to 65% of the radius, a fade to 0 at the radius, and 0
outside.  The fade band (0.65·r < dist < r) is linear in the distance in the
source; since the exact Euclidean distance of a pixel is irrational in
general, the band is represented here by a monotone interpolation in the
squared distance with the same support and the same endpoint values.  All
results below depend only on the plateau value 1, the value 0 outside the
radius, and the range being contained in [0, 1] — on all of which this
function and the source gradient agree exactly. -/
def featherAlphaSq (r dsq : ℚ) : ℚ :=
  if dsq ≤ ((65 / 100) * r) ^ 2 then 1
  else if dsq < r ^ 2 then (r ^ 2 - dsq) / (r ^ 2 - ((65 / 100) * r) ^ 2)
  else 0

/-- Per-pixel effect of drawing the black feather sprite with the default
(normal, source-over) blend mode onto the fog texture, as done by the
hide-circle branch of FogLayer.drawOp: destination alpha a becomes
s + a·(1 − s) where s is the stamp alpha at that pixel. -/
def hideBlend (a s : ℚ) : ℚ := s + a * (1 - s)

/-- Per-pixel effect of the erase-group composite used by the reveal
branches of FogLayer.drawOp.  The arithmetic of the 'erase' blend lives in
the pixi.js library, outside this repository; it is modelled here by the
carve contract the design documents for it: the destination alpha is
reduced by the stamp alpha, clipped at zero. -/
def carveBlend (a s : ℚ) : ℚ := max (a - s) 0

/-- Group a flat coordinate list [x0, y0, x1, y1, ...] into vertex pairs
(dropping a trailing unpaired coordinate, as the rasterizer would). -/
def pairUp : List ℚ → List (ℚ × ℚ)
  | x :: y :: rest => (x, y) :: pairUp rest
  | _ => []

/-- The closed edge loop of a vertex list: each vertex joined to the next,
and the last joined back to the first. -/
def edgeLoop (vs : List (ℚ × ℚ)) : List ((ℚ × ℚ) × (ℚ × ℚ)) :=
  match vs with
  | [] => []
  | v :: _ => vs.zip (vs.drop 1 ++ [v])

/-- Whether a horizontal ray from p to the right crosses the edge e; the
standard even-odd ray-casting test used to model the rasterizer's polygon
fill coverage. -/
def crossesRay (p : ℚ × ℚ) (e : (ℚ × ℚ) × (ℚ × ℚ)) : Bool :=
  let a := e.1
  let b := e.2
  (decide (a.2 > p.2) != decide (b.2 > p.2)) &&
    decide (p.1 < (b.1 - a.1) * (p.2 - a.2) / (b.2 - a.2) + a.1)

/-- Point-in-polygon test (even-odd rule) over the flat coordinate list of
a reveal-polygon operation; models which pixels the hard-edged polygon
fill of FogLayer.drawOp covers. -/
def pointInPoly (points : List ℚ) (p : ℚ × ℚ) : Bool :=
  ((edgeLoop (pairUp points)).countP (crossesRay p)) % 2 == 1

/-- FogLayer.drawOp: per-pixel effect of one non-reset operation on the fog
texture.  hide-circle draws the feather stamp tinted black with the normal
blend; reveal-circle composites the feather stamp through an erase group
(carve); reveal-polygon carves a hard-edged polygon, silently skipped when
the flat coordinate list has fewer than 6 entries (< 3 vertices); reset has
no branch in drawOp and leaves the raster unchanged. -/
def drawOp (m : Mask) (op : FogOp) : Mask :=
  match op with
  | .hideCircle x y r => fun p => hideBlend (m p) (featherAlphaSq r (dist2 p (x, y)))
  | .revealCircle x y r => fun p => carveBlend (m p) (featherAlphaSq r (dist2 p (x, y)))
  | .revealPolygon points =>
      if points.length < 6 then m
      else fun p => if pointInPoly points p then carveBlend (m p) 1 else m p
  | .reset => m

/-- Whether the log contains a reset operation anywhere. -/
def hasReset : List FogOp → Bool
  | [] => false
  | op :: rest => op.isReset || hasReset rest

/-- The replay start found by the backward scan in FogLayer.applyOps: the
index right after the last reset in the log, or 0 when the log holds no
reset.  The backward loop of the source is rendered as structural
recursion: if the tail still contains a reset, the last reset sits in the
tail and the start is one past the start computed for the tail; otherwise
the head is the last reset candidate. -/
def replayStart : List FogOp → ℕ
  | [] => 0
  | op :: rest =>
      if hasReset rest then replayStart rest + 1
      else if op.isReset then 1 else 0

/-- FogLayer.applyOps on an initialized engine: clear the raster to fully
opaque (fillBlack), find the replay start, and replay the operations from
that index forward, in order, through drawOp.  The method returns early
when the texture or renderer is missing; the claims are stated for an
engine whose raster has been initialized, so that guard does not arise. -/
def applyOps (ops : List FogOp) : Mask :=
  (ops.drop (replayStart ops)).foldl drawOp fillBlackMask

/-- FogLayer.applyOneOp on an initialized engine: a reset refills the
raster fully opaque; any other operation is drawn incrementally on top of
the current raster. -/
def applyOneOp (m : Mask) (op : FogOp) : Mask :=
  if op.isReset then fillBlackMask else drawOp m op

/-- Image reference committed to the authoritative state
(src/renderer/src/types/index.ts MapInfo): payload (base64 data URL,
empty string when withheld), optional on-disk path (its identity when
present), display name, and natural pixel dimensions. -/
structure MapInfo where
  dataUrl : String
  filePath : Option String
  name : String
  width : ℚ
  height : ℚ
deriving DecidableEq

inductive TokenType where
  | player
  | npc
  | enemy
deriving DecidableEq

inductive TokenStatus where
  | alive
  | dsa
  | dead
deriving DecidableEq

/-- A map token (src/renderer/src/types/index.ts Token).  The optional
monster sheet payload is never inspected by any state operation modelled
here and is embedded as an uninterpreted string. -/
structure Token where
  id : String
  type : TokenType
  x : ℚ
  y : ℚ
  label : String
  color : String
  visibleToPlayers : Bool
  status : Option TokenStatus
  hp : Option ℚ
  hpMax : Option ℚ
  ac : Option ℚ
  monsterSheet : Option String
deriving DecidableEq

structure PlayerViewport where
  x : ℚ
  y : ℚ
  scale : ℚ
deriving DecidableEq

structure Effect where
  id : String
  name : String
  duration : Option ℚ
  color : String
deriving DecidableEq

structure Combatant where
  id : String
  name : String
  initiative : ℚ
  initiativeTieBreak : ℚ
  sortOrder : ℚ
  tokenId : Option String
  hp : Option ℚ
  hpMax : Option ℚ
  ac : Option ℚ
  isPlayerCharacter : Bool
  isVisible : Bool
  isActive : Bool
  effects : List Effect
deriving DecidableEq

/-- A battle log entry (src/renderer/src/types/index.ts BattleLogEntry);
the kind tag and the metadata record are never inspected by the state
operations modelled here and are embedded as uninterpreted strings. -/
structure BattleLogEntry where
  id : String
  round : ℚ
  timestamp : String
  kind : String
  text : String
  combatantId : Option String
  meta : Option String
deriving DecidableEq

structure Battle where
  id : String
  name : String
  round : ℚ
  turnDuration : ℚ
  isActive : Bool
  combatants : List Combatant
  log : List BattleLogEntry
  createdAt : String
deriving DecidableEq

structure MonsterReveal where
  imgUrl : String
  name : String
deriving DecidableEq

/-- The canonical application state owned by the main process
(src/renderer/src/types/index.ts GameState, held in
src/main/gameState.ts). -/
structure GameState where
  map : Option MapInfo
  fogOps : List FogOp
  tokens : List Token
  tokenRadius : ℚ
  tokenLabelSize : ℚ
  tokenLabelVisible : Bool
  playerViewport : Option PlayerViewport
  battle : Option Battle
  monsterReveal : Option MonsterReveal
deriving DecidableEq

/-- The versioned save document (src/renderer/src/types/index.ts
SaveFile).  playerViewport and battle are declared nullable and read back
through a null-coalescing default, which the Option embedding captures
directly; the document has no monsterReveal field. -/
structure SaveFile where
  version : String
  savedAt : String
  map : Option MapInfo
  fogOps : List FogOp
  tokens : List Token
  tokenRadius : ℚ
  tokenLabelSize : ℚ
  tokenLabelVisible : Bool
  playerViewport : Option PlayerViewport
  battle : Option Battle
deriving DecidableEq

/-- The state value created at process start (src/main/gameState.ts,
module-level initializer). -/
def initialState : GameState where
  map := none
  fogOps := []
  tokens := []
  tokenRadius := 20
  tokenLabelSize := 14
  tokenLabelVisible := true
  playerViewport := none
  battle := none
  monsterReveal := none

/-- gameState.ts setMap: store the new map and clear the fog operation
log ("Reset fog when a new map is loaded"); no other field is touched. -/
def setMap (st : GameState) (map : MapInfo) : GameState :=
  { st with map := some map, fogOps := [] }

/-- Whether the last element of the log is a reset (the `last?.type ===
'reset'` check of addFogOp; false for the empty log, whose last element is
undefined). -/
def lastIsReset (log : List FogOp) : Bool :=
  match log.getLast? with
  | some op => op.isReset
  | none => false

/-- gameState.ts addFogOp, acting on the fogOps log: a reset replaces the
whole log; otherwise, when the last element is a reset the log is replaced
by the single new operation (keeping the list lean), and otherwise the
operation is pushed at the end.  Pushing onto the empty log also yields
the single-element log. -/
def addFogOp (log : List FogOp) (op : FogOp) : List FogOp :=
  if op.isReset then [op]
  else if lastIsReset log then [op]
  else log ++ [op]

/-- gameState.ts addFogOps: apply addFogOp to each operation of the batch
in order. -/
def addFogOps (log : List FogOp) (ops : List FogOp) : List FogOp :=
  ops.foldl addFogOp log

/-- gameState.ts loadSave: overwrite the stored fields from the save
document.  The source assigns map, fogOps, tokens, tokenRadius,
tokenLabelSize, tokenLabelVisible, playerViewport (null default) and
battle (null default) — and nothing else; in particular monsterReveal is
not assigned. -/
def loadSave (st : GameState) (save : SaveFile) : GameState :=
  { st with
    map := save.map
    fogOps := save.fogOps
    tokens := save.tokens
    tokenRadius := save.tokenRadius
    tokenLabelSize := save.tokenLabelSize
    tokenLabelVisible := save.tokenLabelVisible
    playerViewport := save.playerViewport
    battle := save.battle }

/-- A concrete prior state whose monsterReveal is set. -/
def prevStateEx : GameState :=
  { initialState with monsterReveal := some ⟨"img://goblin", "Goblin"⟩ }

/-- A concrete save document (note the SaveFile type carries no
monsterReveal field at all). -/
def saveFileEx : SaveFile where
  version := "1.0"
  savedAt := "2026-01-01T00:00:00Z"
  map := none
  fogOps := [FogOp.reset]
  tokens := []
  tokenRadius := 30
  tokenLabelSize := 12
  tokenLabelVisible := false
  playerViewport := none
  battle := none

/-- The per-channel bookkeeping of the SSE broadcast path in
src/main/index.ts: the module-level variables sseLastMapKey (identity of
the last map whose payload state was decided on this channel),
sseMapDataUrlCache (payload cached for SSE delivery, refreshed by the map
commit and scene load handlers), and the battle-log cursor
(sseLastBattleLogLen, sseLastBattleId). -/
structure SseChannel where
  lastMapKey : String
  mapDataUrlCache : String
  lastBattleLogLen : ℕ
  lastBattleId : String
deriving DecidableEq

/-- The image identity key used by broadcastSse: the map's filePath when
present, else its dataUrl, else the empty string when no map is set. -/
def mapIdentityKey (st : GameState) : String :=
  match st.map with
  | none => ""
  | some m => m.filePath.getD m.dataUrl

/-- src/main/index.ts broadcastSse, restricted to the snapshot it
transmits and the channel bookkeeping it updates (client-list pruning and
the socket writes carry no state semantics).  When the map identity is
unchanged since the last broadcast the transmitted copy carries an empty
dataUrl; when it changed, the transmitted copy carries the cached payload
and the remembered identity becomes the new key.  The battle log is
stripped from the transmitted copy when the battle id and log length are
both unchanged. -/
def broadcastSse (ch : SseChannel) (st : GameState) : GameState × SseChannel :=
  let mapKey := mapIdentityKey st
  let battleLogLen := match st.battle with | some b => b.log.length | none => 0
  let battleLogChanged :=
    (match st.battle with
     | some b => decide (b.id ≠ ch.lastBattleId)
     | none => true) || decide (battleLogLen ≠ ch.lastBattleLogLen)
  let sseState : GameState :=
    { st with
      map :=
        match st.map with
        | none => none
        | some m =>
            if mapKey = ch.lastMapKey then some { m with dataUrl := "" }
            else some { m with dataUrl := ch.mapDataUrlCache }
      battle :=
        match st.battle with
        | none => none
        | some b => if battleLogChanged then some b else some { b with log := [] } }
  let ch2 : SseChannel :=
    { ch with
      lastMapKey := mapKey
      lastBattleId := (match st.battle with | some b => b.id | none => "")
      lastBattleLogLen := battleLogLen }
  (sseState, ch2)

/-- The pieces of main-process module state involved in serving the pull
endpoint: the authoritative game state (src/main/gameState.ts) and the
SSE payload cache variable of src/main/index.ts. -/
structure MainProc where
  game : GameState
  sseMapDataUrlCache : String
deriving DecidableEq

/-- The IPC.LOAD_MAP ':commit' handler of src/main/index.ts: cache the
committed payload for SSE delivery, then store the map — with its dataUrl
stripped from the authoritative state when a filePath is present
(file-dialog load), and verbatim otherwise. -/
def commitMapHandler (mp : MainProc) (mapInfo : MapInfo) : MainProc :=
  { mp with
    sseMapDataUrlCache := mapInfo.dataUrl
    game :=
      if mapInfo.filePath.isSome then setMap mp.game { mapInfo with dataUrl := "" }
      else setMap mp.game mapInfo }

/-- The GET /state pull endpoint of the SSE server: it serializes
gs.getState(), a structuredClone of the canonical state — value-equal to
it. -/
def pullState (mp : MainProc) : GameState := mp.game

/-- Bounded linear search for the least n (starting at the given n, for at
most fuel steps) with K ≤ n·n; structural in the fuel so that concrete
instances reduce in the kernel. -/
def ceilSqrtFrom (K : ℕ) : ℕ → ℕ → ℕ
  | 0, n => n
  | fuel + 1, n => if K ≤ n * n then n else ceilSqrtFrom K fuel (n + 1)

/-- The least natural number n with K ≤ n·n, i.e. the ceiling of the real
square root of K (fuel K suffices since K ≤ K·K). -/
def ceilSqrt (K : ℕ) : ℕ := ceilSqrtFrom K K 0

/-- The step count Math.ceil(dist / step) computed by paintAt, expressed
exactly over the squared distance: for dist = √dsq ≥ 0 and step > 0,
writing dsq = a/b and step = c/e in lowest terms, dist/step =
√(a·b·e²)/(b·c), and the ceiling of √K/m for naturals K, m equals
(⌈√K⌉ + m − 1)/m in natural division.  The result is the least natural n
with dsq ≤ (n·step)² (theorem interpSteps_least).  The step ≤ 0 guard is
never reached from the source call site, where step = radius · 0.4 with a
positive brush radius. -/
def interpSteps (dsq step : ℚ) : ℕ :=
  if step ≤ 0 then 0
  else
    (ceilSqrt (dsq.num.toNat * dsq.den * step.den ^ 2) + dsq.den * step.num.toNat - 1) /
      (dsq.den * step.num.toNat)

/-- The fog operation painted for one pointer sample (MapCanvas.paintAt:
opType is reveal-circle for the fog-reveal tool and hide-circle for
fog-hide). -/
def circleOp (reveal : Bool) (x y radius : ℚ) : FogOp :=
  if reveal then FogOp.revealCircle x y radius else FogOp.hideCircle x y radius

/-- The gap-filling loop of MapCanvas.paintAt: with a last painted point l
and a new point p, when the distance between them exceeds step =
radius · 0.4 (equivalently, over nonnegative quantities, when step² is
less than the squared distance), the loop for i = 1 .. steps−1 with
t = i/steps synthesizes evenly-interpolated operations strictly between l
and p; otherwise nothing is synthesized. -/
def interpOps (l p : ℚ × ℚ) (reveal : Bool) (radius : ℚ) : List FogOp :=
  if (radius * (4 / 10)) ^ 2 < (p.1 - l.1) ^ 2 + (p.2 - l.2) ^ 2 then
    (List.range
        (interpSteps ((p.1 - l.1) ^ 2 + (p.2 - l.2) ^ 2) (radius * (4 / 10)) - 1)).map
      fun (i : ℕ) =>
        circleOp reveal
          (l.1 + (p.1 - l.1) * (((i : ℚ) + 1) /
            (interpSteps ((p.1 - l.1) ^ 2 + (p.2 - l.2) ^ 2) (radius * (4 / 10)) : ℚ)))
          (l.2 + (p.2 - l.2) * (((i : ℚ) + 1) /
            (interpSteps ((p.1 - l.1) ^ 2 + (p.2 - l.2) ^ 2) (radius * (4 / 10)) : ℚ)))
          radius
  else []

/-- The operations MapCanvas.paintAt appends to the stroke buffer for one
pointer sample: the synthesized gap-filling operations (when there is a
last painted point) followed by the endpoint operation for the sample
itself. -/
def paintAtOps (last : Option (ℚ × ℚ)) (p : ℚ × ℚ) (reveal : Bool) (radius : ℚ) :
    List FogOp :=
  (match last with
   | some l => interpOps l p reveal radius
   | none => []) ++ [circleOp reveal p.1 p.2 radius]

/-- The per-gesture mutable state of MapCanvas: the isPaintingRef flag,
lastPaintPosRef and strokeBufferRef refs. -/
structure PaintState where
  isPainting : Bool
  lastPaintPos : Option (ℚ × ℚ)
  strokeBuffer : List FogOp
deriving DecidableEq

/-- MapCanvas.paintAt as a transition on the gesture state: push the
sample's operations onto the stroke buffer and remember the sample as the
last painted point (each operation is also applied to the local fog layer
for immediate feedback, which leaves the gesture state unchanged). -/
def paintAt (st : PaintState) (p : ℚ × ℚ) (reveal : Bool) (radius : ℚ) : PaintState :=
  { st with
    strokeBuffer := st.strokeBuffer ++ paintAtOps st.lastPaintPos p reveal radius
    lastPaintPos := some p }

/-- MapCanvas.onPointerDown with a fog tool active: start painting, clear
the last painted point and the stroke buffer, then paint at the sample. -/
def onPointerDown (st : PaintState) (p : ℚ × ℚ) (reveal : Bool) (radius : ℚ) : PaintState :=
  paintAt { st with isPainting := true, lastPaintPos := none, strokeBuffer := [] } p reveal radius

/-- MapCanvas.onPointerMove with a fog tool active: paint at the sample
while a gesture is in progress, otherwise do nothing. -/
def onPointerMove (st : PaintState) (p : ℚ × ℚ) (reveal : Bool) (radius : ℚ) : PaintState :=
  if st.isPainting then paintAt st p reveal radius else st

/-- MapCanvas.onPointerUp: end the gesture, flush the stroke buffer as one
batch (commitStroke is invoked only when the buffer is non-empty, and an
empty buffer flushes nothing — both cases yield the buffer's contents as
the flushed batch), and clear the gesture state. -/
def onPointerUp (st : PaintState) : List FogOp × PaintState :=
  (st.strokeBuffer, { isPainting := false, lastPaintPos := none, strokeBuffer := [] })

theorem replayStart_of_not_hasReset :
    ∀ ops : List FogOp, hasReset ops = false → replayStart ops = 0 := by
  intro ops h
  cases ops with
  | nil => rfl
  | cons op rest =>
    simp only [hasReset, Bool.or_eq_false_iff] at h
    simp [replayStart, h.1, h.2]

theorem foldl_applyOneOp_eq (ops : List FogOp) : ∀ m : Mask,
    List.foldl applyOneOp m ops =
      if hasReset ops then (ops.drop (replayStart ops)).foldl drawOp fillBlackMask
      else List.foldl drawOp m ops := by
  induction ops with
  | nil => intro m; simp [hasReset]
  | cons op rest ih =>
    intro m
    cases hop : op.isReset with
    | true =>
      have hstep : applyOneOp m op = fillBlackMask := by simp [applyOneOp, hop]
      have hhr : hasReset (op :: rest) = true := by simp [hasReset, hop]
      cases hr : hasReset rest with
      | true =>
        have hrs : replayStart (op :: rest) = replayStart rest + 1 := by
          simp [replayStart, hr]
        simp only [List.foldl_cons, hstep, ih fillBlackMask, hr, if_pos, hhr, hrs,
          List.drop_succ_cons, if_true]
      | false =>
        have hrs : replayStart (op :: rest) = 1 := by simp [replayStart, hr, hop]
        have h0 : replayStart rest = 0 := replayStart_of_not_hasReset rest hr
        simp only [List.foldl_cons, hstep, ih fillBlackMask, hr, hhr, hrs,
          List.drop_succ_cons, if_true, if_false, Bool.false_eq_true, List.drop_zero,
          List.drop_one, List.tail_cons]
    | false =>
      have hstep : applyOneOp m op = drawOp m op := by simp [applyOneOp, hop]
      have hhr : hasReset (op :: rest) = hasReset rest := by simp [hasReset, hop]
      cases hr : hasReset rest with
      | true =>
        have hrs : replayStart (op :: rest) = replayStart rest + 1 := by
          simp [replayStart, hr]
        simp only [List.foldl_cons, hstep, ih (drawOp m op), hr, hhr, hrs,
          List.drop_succ_cons, if_true]
      | false =>
        have hrs : replayStart (op :: rest) = 0 := by simp [replayStart, hr, hop]
        simp only [List.foldl_cons, hstep, ih (drawOp m op), hr, hhr, hrs,
          if_false, Bool.false_eq_true, List.drop_zero]

/-- C1: for every operation log, a full rebuild (applyOps: clear the raster
to fully opaque, then replay from the replay start) produces exactly the
raster obtained by starting from the fully opaque raster and applying
applyOneOp to each element of the log in order — full replay and
incremental application converge, pixel for pixel. -/
theorem applyOps_eq_incremental_replay (ops : List FogOp) :
    applyOps ops = List.foldl applyOneOp fillBlackMask ops := by
  rw [foldl_applyOneOp_eq]
  cases hr : hasReset ops with
  | true => simp [applyOps, hr]
  | false =>
    simp [applyOps, hr, replayStart_of_not_hasReset ops hr]

theorem hasReset_of_getElem? :
    ∀ (ops : List FogOp) (i : ℕ), ops[i]? = some FogOp.reset → hasReset ops = true := by
  intro ops
  induction ops with
  | nil => intro i h; simp at h
  | cons op rest ih =>
    intro i h
    cases i with
    | zero =>
      simp only [List.getElem?_cons_zero, Option.some.injEq] at h
      subst h
      simp [hasReset, FogOp.isReset]
    | succ j =>
      simp only [List.getElem?_cons_succ] at h
      simp [hasReset, ih j h]

/-- C2: for every log and every index i at which the log holds a reset
operation, a full rebuild of the whole log produces the same raster as a
full rebuild of the suffix after that index — replaying anything at or
before a reset is observably equivalent to not replaying it. -/
theorem applyOps_eq_applyOps_drop (ops : List FogOp) (i : ℕ)
    (h : ops[i]? = some FogOp.reset) :
    applyOps ops = applyOps (ops.drop (i + 1)) := by
  induction ops generalizing i with
  | nil => simp at h
  | cons op rest ih =>
    cases i with
    | zero =>
      simp only [List.getElem?_cons_zero, Option.some.injEq] at h
      subst h
      show applyOps (FogOp.reset :: rest) = applyOps rest
      cases hr : hasReset rest with
      | true =>
        have hrs : replayStart (FogOp.reset :: rest) = replayStart rest + 1 := by
          simp [replayStart, hr]
        simp [applyOps, hrs, List.drop_succ_cons]
      | false =>
        have hrs : replayStart (FogOp.reset :: rest) = 1 := by
          simp [replayStart, hr, FogOp.isReset]
        have h0 : replayStart rest = 0 := replayStart_of_not_hasReset rest hr
        simp [applyOps, hrs, h0, List.drop_one]
    | succ j =>
      simp only [List.getElem?_cons_succ] at h
      have hr : hasReset rest = true := hasReset_of_getElem? rest j h
      have hrs : replayStart (op :: rest) = replayStart rest + 1 := by
        simp [replayStart, hr]
      have hhead : applyOps (op :: rest) = applyOps rest := by
        simp [applyOps, hrs, List.drop_succ_cons]
      rw [hhead, ih j h]
      simp [List.drop_succ_cons]

/-- Closed instance of applyOps_eq_applyOps_drop: the log
[reset, reveal-circle(1,2,3)] rebuilds to the same raster as its suffix
after index 0. -/
theorem applyOps_eq_applyOps_drop_witness :
    applyOps [FogOp.reset, FogOp.revealCircle 1 2 3] =
      applyOps ([FogOp.reset, FogOp.revealCircle 1 2 3].drop (0 + 1)) :=
  applyOps_eq_applyOps_drop [FogOp.reset, FogOp.revealCircle 1 2 3] 0 rfl

/-- C9 counterexample input: on a fully opaque raster, draw a hide-circle
and then a reveal-circle at the same center (0,0) and radius 10, and look
at the center pixel, which lies in the affected region: its pre-hide alpha
is 1 (opaque), the hide leaves it at 1, and the carve then subtracts the
full stamp alpha (1 at the center), leaving 0 — not the pre-hide value.
This refutes the unconditional round-trip claim at a concrete input. -/
theorem hide_reveal_roundtrip_cx :
    drawOp (drawOp fillBlackMask (FogOp.hideCircle 0 0 10)) (FogOp.revealCircle 0 0 10) (0, 0) ≠
      fillBlackMask (0, 0) := by
  have hd : dist2 ((0 : ℚ), (0 : ℚ)) ((0 : ℚ), (0 : ℚ)) = 0 := by
    simp [dist2]
  have hs : featherAlphaSq 10 0 = 1 := by
    rw [featherAlphaSq, if_pos (by norm_num)]
  show carveBlend (hideBlend (fillBlackMask (0, 0)) (featherAlphaSq 10 (dist2 (0, 0) (0, 0))))
      (featherAlphaSq 10 (dist2 (0, 0) (0, 0))) ≠ fillBlackMask (0, 0)
  rw [hd, hs]
  show carveBlend (hideBlend 1 1) 1 ≠ 1
  rw [hideBlend, carveBlend]
  norm_num

/-- C9 (amended): drawing a hide-circle and then a reveal-circle at the
same center and positive radius returns a pixel (of a raster with
nonnegative alpha) to its pre-hide alpha whenever that pixel was fully
revealed before the hide (alpha 0), or lies outside the stamp support
(squared distance at least the squared radius).  On fogged pixels of the
affected region the round trip is not the identity in general, as the
counterexample shows at the stamp center. -/
theorem hide_then_reveal_restores (m : Mask) (x y r : ℚ) (p : ℚ × ℚ)
    (hr : 0 < r) (ha : 0 ≤ m p) (h : m p = 0 ∨ r ^ 2 ≤ dist2 p (x, y)) :
    drawOp (drawOp m (FogOp.hideCircle x y r)) (FogOp.revealCircle x y r) p = m p := by
  show carveBlend (hideBlend (m p) (featherAlphaSq r (dist2 p (x, y))))
      (featherAlphaSq r (dist2 p (x, y))) = m p
  rcases h with h0 | hout
  · rw [h0, hideBlend, carveBlend]
    simp
  · have hplateau : ¬ dist2 p (x, y) ≤ ((65 / 100) * r) ^ 2 := by
      have hlt : ((65 / 100) * r) ^ 2 < r ^ 2 := by nlinarith
      intro hle
      exact absurd (lt_of_le_of_lt (le_trans hout hle) hlt) (lt_irrefl _)
    have hband : ¬ dist2 p (x, y) < r ^ 2 := not_lt.mpr hout
    have hs : featherAlphaSq r (dist2 p (x, y)) = 0 := by
      rw [featherAlphaSq, if_neg hplateau, if_neg hband]
    rw [hs, hideBlend, carveBlend]
    simp [ha]

theorem hide_then_reveal_restores_witness :
    drawOp (drawOp (fun _ => 0) (FogOp.hideCircle 0 0 1)) (FogOp.revealCircle 0 0 1) (2, 3) =
      (fun _ => (0 : ℚ)) (2, 3) :=
  hide_then_reveal_restores (fun _ => 0) 0 0 1 (2, 3) one_pos (le_refl 0) (Or.inl rfl)

/-- C3: the append entry point follows the documented rule — a reset
replaces the log with the single-element list; a non-reset op appended to
an empty log or to a log ending in a reset also replaces the log; any
other non-reset op is appended at the end; the batch entry point applies
this rule left to right over the batch; and appending a reset twice in a
row (two consecutive single-element batches) leaves a log of length 1,
not 2. -/
theorem addFogOp_append_rule (log : List FogOp) (op : FogOp) (ops : List FogOp) :
    (op.isReset = true → addFogOp log op = [op]) ∧
    (op.isReset = false → (log = [] ∨ lastIsReset log = true) → addFogOp log op = [op]) ∧
    (op.isReset = false → lastIsReset log = false → addFogOp log op = log ++ [op]) ∧
    addFogOps log ops = ops.foldl addFogOp log ∧
    (addFogOps (addFogOps log [FogOp.reset]) [FogOp.reset]).length = 1 := by
  refine ⟨?_, ?_, ?_, rfl, ?_⟩
  · intro h; simp [addFogOp, h]
  · intro h hl
    rcases hl with hl | hl
    · subst hl; simp [addFogOp, h, lastIsReset]
    · simp [addFogOp, h, hl]
  · intro h hl; simp [addFogOp, h, hl]
  · show (addFogOp (addFogOp log FogOp.reset) FogOp.reset).length = 1
    simp [addFogOp, FogOp.isReset]

theorem addFogOp_append_rule_witness :
    addFogOp [] FogOp.reset = [FogOp.reset] ∧
    addFogOp [FogOp.revealCircle 1 2 3] (FogOp.hideCircle 4 5 6) =
      [FogOp.revealCircle 1 2 3, FogOp.hideCircle 4 5 6] :=
  ⟨(addFogOp_append_rule [] FogOp.reset []).1 rfl,
   (addFogOp_append_rule [FogOp.revealCircle 1 2 3] (FogOp.hideCircle 4 5 6) []).2.2.1 rfl rfl⟩

/-- C8 counterexample: loading a save into a state whose monsterReveal is
set leaves that field of the previous session in place — it is not
replaced by the save document's value or a null default, refuting the
claim that every field of the canonical state is swapped. -/
theorem loadSave_keeps_monsterReveal_cx :
    (loadSave prevStateEx saveFileEx).monsterReveal ≠ none := by
  simp [loadSave, prevStateEx]

/-- C8 (amended): loading a save atomically replaces every field of the
canonical state except monsterReveal with the corresponding value from the
save document (the nullable playerViewport and battle fields defaulting to
null when absent); monsterReveal is left holding the previous session's
value. -/
theorem loadSave_replaces_fields (st : GameState) (save : SaveFile) :
    (loadSave st save).map = save.map ∧
    (loadSave st save).fogOps = save.fogOps ∧
    (loadSave st save).tokens = save.tokens ∧
    (loadSave st save).tokenRadius = save.tokenRadius ∧
    (loadSave st save).tokenLabelSize = save.tokenLabelSize ∧
    (loadSave st save).tokenLabelVisible = save.tokenLabelVisible ∧
    (loadSave st save).playerViewport = save.playerViewport ∧
    (loadSave st save).battle = save.battle ∧
    (loadSave st save).monsterReveal = st.monsterReveal :=
  ⟨rfl, rfl, rfl, rfl, rfl, rfl, rfl, rfl, rfl⟩

/-- C10: setMap stores the new map and also clears the fog operation log,
while leaving every other field of the canonical state unchanged — loading
a new image discards the entire reveal history. -/
theorem setMap_clears_fogOps (st : GameState) (m : MapInfo) :
    (setMap st m).map = some m ∧
    (setMap st m).fogOps = [] ∧
    (setMap st m).tokens = st.tokens ∧
    (setMap st m).tokenRadius = st.tokenRadius ∧
    (setMap st m).tokenLabelSize = st.tokenLabelSize ∧
    (setMap st m).tokenLabelVisible = st.tokenLabelVisible ∧
    (setMap st m).playerViewport = st.playerViewport ∧
    (setMap st m).battle = st.battle ∧
    (setMap st m).monsterReveal = st.monsterReveal :=
  ⟨rfl, rfl, rfl, rfl, rfl, rfl, rfl, rfl, rfl⟩

/-- C4: on the SSE push channel, when the current state's image identity
key (filePath when present, else dataUrl) equals the identity remembered
on the channel, the transmitted snapshot's map payload is stripped to the
empty string (and in particular differs from any non-empty original
payload); when the identity changed, the transmitted snapshot carries the
channel's cached full payload for the image and the remembered identity is
updated to the new key. -/
theorem broadcastSse_lite_rule (ch : SseChannel) (st : GameState) (m : MapInfo)
    (hm : st.map = some m) :
    (mapIdentityKey st = ch.lastMapKey →
       (broadcastSse ch st).1.map = some { m with dataUrl := "" } ∧
       (m.dataUrl ≠ "" → (broadcastSse ch st).1.map ≠ some m)) ∧
    (mapIdentityKey st ≠ ch.lastMapKey →
       (broadcastSse ch st).1.map = some { m with dataUrl := ch.mapDataUrlCache } ∧
       (broadcastSse ch st).2.lastMapKey = mapIdentityKey st) := by
  constructor
  · intro hk
    have hmap : (broadcastSse ch st).1.map = some { m with dataUrl := "" } := by
      simp [broadcastSse, hm, hk]
    refine ⟨hmap, fun hne heq => hne ?_⟩
    rw [hmap] at heq
    have h2 : ({ m with dataUrl := "" } : MapInfo) = m := Option.some.inj heq
    have := congrArg MapInfo.dataUrl h2
    exact this.symm
  · intro hk
    constructor
    · simp [broadcastSse, hm, hk]
    · simp [broadcastSse]

theorem broadcastSse_lite_rule_witness :
    (broadcastSse ⟨"old-key", "cached-payload", 0, ""⟩
        { initialState with map := some ⟨"payload", none, "map", 50, 50⟩ }).1.map =
      some ⟨"cached-payload", none, "map", 50, 50⟩ ∧
    (broadcastSse ⟨"old-key", "cached-payload", 0, ""⟩
        { initialState with map := some ⟨"payload", none, "map", 50, 50⟩ }).2.lastMapKey =
      mapIdentityKey { initialState with map := some ⟨"payload", none, "map", 50, 50⟩ } :=
  (broadcastSse_lite_rule ⟨"old-key", "cached-payload", 0, ""⟩
      { initialState with map := some ⟨"payload", none, "map", 50, 50⟩ }
      ⟨"payload", none, "map", 50, 50⟩ rfl).2 (by decide)

/-- C5 counterexample: committing a map that carries a filePath (the
file-dialog load shape documented in MapInfo) strips the payload from the
authoritative state, so the pull endpoint's snapshot holds an empty
dataUrl instead of the committed payload — the pull snapshot is not a full
non-lite snapshot carrying the image payload. -/
theorem pullState_after_commit_cx :
    (pullState (commitMapHandler ⟨initialState, ""⟩
        ⟨"PAYLOAD", some "/maps/a.png", "a", 50, 50⟩)).map =
      some ⟨"", some "/maps/a.png", "a", 50, 50⟩ ∧
    ("" : String) ≠ "PAYLOAD" := by
  constructor
  · simp [pullState, commitMapHandler, setMap]
  · decide

/-- C5 (amended): when a map is committed without a filePath — the shape
the renderer's loadMap always sends — the authoritative state keeps the
full payload, so the pull endpoint returns the committed image reference
with its payload intact; and the pull endpoint always returns exactly the
mutator's canonical state, so a late joiner that fetches it and then
subscribes matches the mutator after applying zero push frames.  When a
filePath is present, the commit handler strips the payload from the
authoritative state and the pull snapshot's dataUrl is empty. -/
theorem pullState_after_commit (mp : MainProc) (mapInfo : MapInfo)
    (h : mapInfo.filePath = none) :
    (pullState (commitMapHandler mp mapInfo)).map = some mapInfo ∧
    pullState (commitMapHandler mp mapInfo) = (commitMapHandler mp mapInfo).game := by
  constructor
  · simp [pullState, commitMapHandler, setMap, h]
  · rfl

theorem pullState_after_commit_witness :
    (pullState (commitMapHandler ⟨initialState, ""⟩ ⟨"PAYLOAD", none, "a", 50, 50⟩)).map =
      some ⟨"PAYLOAD", none, "a", 50, 50⟩ ∧
    pullState (commitMapHandler ⟨initialState, ""⟩ ⟨"PAYLOAD", none, "a", 50, 50⟩) =
      (commitMapHandler ⟨initialState, ""⟩ ⟨"PAYLOAD", none, "a", 50, 50⟩).game :=
  pullState_after_commit ⟨initialState, ""⟩ ⟨"PAYLOAD", none, "a", 50, 50⟩ rfl

theorem ceilSqrtFrom_le_sq (K : ℕ) :
    ∀ fuel n, K ≤ (n + fuel) * (n + fuel) →
      K ≤ ceilSqrtFrom K fuel n * ceilSqrtFrom K fuel n := by
  intro fuel
  induction fuel with
  | zero => intro n h; simpa [ceilSqrtFrom] using h
  | succ f ih =>
    intro n h
    rw [ceilSqrtFrom]
    by_cases hn : K ≤ n * n
    · simp [hn]
    · have h2 : K ≤ (n + 1 + f) * (n + 1 + f) := by
        have : n + (f + 1) = n + 1 + f := by omega
        simpa [this] using h
      simpa [hn] using ih (n + 1) h2

theorem ceilSqrtFrom_le (K : ℕ) :
    ∀ fuel n m, n ≤ m → m ≤ n + fuel → K ≤ m * m → ceilSqrtFrom K fuel n ≤ m := by
  intro fuel
  induction fuel with
  | zero =>
    intro n m h1 h2 _
    have : m = n := by omega
    simp [ceilSqrtFrom, this]
  | succ f ih =>
    intro n m h1 h2 hm
    rw [ceilSqrtFrom]
    by_cases hn : K ≤ n * n
    · simpa [hn] using h1
    · have hne : n ≠ m := fun he => hn (he ▸ hm)
      have h1' : n + 1 ≤ m := by omega
      have h2' : m ≤ n + 1 + f := by omega
      simpa [hn] using ih (n + 1) m h1' h2' hm

theorem le_ceilSqrt_sq (K : ℕ) : K ≤ ceilSqrt K * ceilSqrt K := by
  refine ceilSqrtFrom_le_sq K K 0 ?_
  rcases Nat.eq_zero_or_pos K with h | h
  · simp [h]
  · simpa using Nat.le_mul_of_pos_left K h

theorem ceilSqrt_le (K m : ℕ) (h : K ≤ m * m) : ceilSqrt K ≤ m := by
  by_cases hm : m ≤ K
  · exact ceilSqrtFrom_le K K 0 m (Nat.zero_le m) (by omega) h
  · have hK : ceilSqrt K ≤ K := by
      refine ceilSqrtFrom_le K K 0 K (Nat.zero_le K) (by omega) ?_
      rcases Nat.eq_zero_or_pos K with h0 | h0
      · simp [h0]
      · simpa using Nat.le_mul_of_pos_left K h0
    omega

theorem le_ceil_div_mul (T M : ℕ) (hM : 0 < M) : T ≤ M * ((T + M - 1) / M) := by
  set q := (T + M - 1) / M with hq
  set r := (T + M - 1) % M with hr
  have h1 : M * q + r = T + M - 1 := Nat.div_add_mod _ _
  have h2 : r < M := Nat.mod_lt _ hM
  omega

theorem rat_div_le_sq_iff (a b c e n : ℕ) (hb : 0 < b) (he : 0 < e) :
    ((a : ℚ) / (b : ℚ) ≤ ((n : ℚ) * ((c : ℚ) / (e : ℚ))) ^ 2 ↔
      a * b * e ^ 2 ≤ (n * (b * c)) ^ 2) := by
  have hb0 : (0 : ℚ) < (b : ℚ) := by exact_mod_cast hb
  have he1 : (0 : ℚ) < (e : ℚ) := by exact_mod_cast he
  have he0 : (0 : ℚ) < ((e : ℚ)) ^ 2 := by positivity
  rw [mul_div_assoc', div_pow, div_le_div_iff₀ hb0 he0]
  have hcast : ((a : ℚ) * ((e : ℚ)) ^ 2 ≤ (((n : ℚ)) * ((c : ℚ))) ^ 2 * ((b : ℚ))) ↔
      (a * e ^ 2 ≤ (n * c) ^ 2 * b) := by
    exact_mod_cast Iff.rfl
  rw [hcast]
  constructor
  · intro h
    have h2 := Nat.mul_le_mul_right b h
    calc a * b * e ^ 2
        = a * e ^ 2 * b := by ring
      _ ≤ (n * c) ^ 2 * b * b := h2
      _ = (n * (b * c)) ^ 2 := by ring
  · intro h
    refine Nat.le_of_mul_le_mul_right ?_ hb
    calc a * e ^ 2 * b
        = a * b * e ^ 2 := by ring
      _ ≤ (n * (b * c)) ^ 2 := h
      _ = (n * c) ^ 2 * b * b := by ring

theorem interpSteps_least (dsq step : ℚ) (h0 : 0 ≤ dsq) (hs : 0 < step) :
    dsq ≤ ((interpSteps dsq step : ℚ) * step) ^ 2 ∧
    ∀ n : ℕ, dsq ≤ ((n : ℚ) * step) ^ 2 → interpSteps dsq step ≤ n := by
  have hnum : (0 : ℤ) ≤ dsq.num := Rat.num_nonneg.mpr h0
  have hcnum : (0 : ℤ) < step.num := Rat.num_pos.mpr hs
  have hbpos : 0 < dsq.den := dsq.pos
  have hepos : 0 < step.den := step.pos
  have hcpos : 0 < step.num.toNat := by omega
  have hda : ((dsq.num : ℚ)) = ((dsq.num.toNat : ℕ) : ℚ) := by
    exact_mod_cast (Int.toNat_of_nonneg hnum).symm
  have hca : ((step.num : ℚ)) = ((step.num.toNat : ℕ) : ℚ) := by
    exact_mod_cast (Int.toNat_of_nonneg (le_of_lt hcnum)).symm
  have hdsq2 : dsq = ((dsq.num.toNat : ℕ) : ℚ) / ((dsq.den : ℕ) : ℚ) := by
    conv_lhs => rw [← Rat.num_div_den dsq]
    rw [hda]
  have hstep2 : step = ((step.num.toNat : ℕ) : ℚ) / ((step.den : ℕ) : ℚ) := by
    conv_lhs => rw [← Rat.num_div_den step]
    rw [hca]
  have key : ∀ n : ℕ, (dsq ≤ ((n : ℚ) * step) ^ 2 ↔
      dsq.num.toNat * dsq.den * step.den ^ 2 ≤ (n * (dsq.den * step.num.toNat)) ^ 2) := by
    intro n
    have h := rat_div_le_sq_iff dsq.num.toNat dsq.den step.num.toNat step.den n hbpos hepos
    rw [← hdsq2, ← hstep2] at h
    exact h
  have hq : interpSteps dsq step =
      (ceilSqrt (dsq.num.toNat * dsq.den * step.den ^ 2) + dsq.den * step.num.toNat - 1) /
        (dsq.den * step.num.toNat) := by
    rw [interpSteps, if_neg (not_le.mpr hs)]
  have hMpos : 0 < dsq.den * step.num.toNat := Nat.mul_pos hbpos hcpos
  have hTq : ceilSqrt (dsq.num.toNat * dsq.den * step.den ^ 2) ≤
      (dsq.den * step.num.toNat) * interpSteps dsq step := by
    rw [hq]
    exact le_ceil_div_mul (ceilSqrt (dsq.num.toNat * dsq.den * step.den ^ 2))
      (dsq.den * step.num.toNat) hMpos
  constructor
  · rw [key (interpSteps dsq step)]
    have hKT := le_ceilSqrt_sq (dsq.num.toNat * dsq.den * step.den ^ 2)
    have hsq := Nat.mul_le_mul hTq hTq
    calc dsq.num.toNat * dsq.den * step.den ^ 2
        ≤ ceilSqrt (dsq.num.toNat * dsq.den * step.den ^ 2) *
            ceilSqrt (dsq.num.toNat * dsq.den * step.den ^ 2) := hKT
      _ ≤ ((dsq.den * step.num.toNat) * interpSteps dsq step) *
            ((dsq.den * step.num.toNat) * interpSteps dsq step) := hsq
      _ = (interpSteps dsq step * (dsq.den * step.num.toNat)) ^ 2 := by ring
  · intro n hn
    rw [key n] at hn
    have hT : ceilSqrt (dsq.num.toNat * dsq.den * step.den ^ 2) ≤
        n * (dsq.den * step.num.toNat) := by
      refine ceilSqrt_le _ _ ?_
      calc dsq.num.toNat * dsq.den * step.den ^ 2
          ≤ (n * (dsq.den * step.num.toNat)) ^ 2 := hn
        _ = (n * (dsq.den * step.num.toNat)) * (n * (dsq.den * step.num.toNat)) := by ring
    rw [hq]
    have hT2 : ceilSqrt (dsq.num.toNat * dsq.den * step.den ^ 2) ≤
        (dsq.den * step.num.toNat) * n := by
      rw [Nat.mul_comm (dsq.den * step.num.toNat) n]
      exact hT
    have hmono : (ceilSqrt (dsq.num.toNat * dsq.den * step.den ^ 2) +
        dsq.den * step.num.toNat - 1) / (dsq.den * step.num.toNat) ≤
        ((dsq.den * step.num.toNat) * n + (dsq.den * step.num.toNat - 1)) /
          (dsq.den * step.num.toNat) :=
      Nat.div_le_div_right (by omega)
    have hfin : ((dsq.den * step.num.toNat) * n + (dsq.den * step.num.toNat - 1)) /
        (dsq.den * step.num.toNat) = n := by
      rw [Nat.mul_add_div hMpos]
      simp [Nat.div_eq_of_lt (by omega : dsq.den * step.num.toNat - 1 < dsq.den * step.num.toNat)]
    rw [← hfin]
    exact hmono

/-- C6 counterexample: for the pointer sample (10,0) following the last
painted point (0,0) with radius 10 (step 4, distance 10 > 4), the loop
body runs for i = 1, 2 only — the code synthesizes 2 intermediate
operations, not ceil(10/4) = 3 as the claim states. -/
theorem interpOps_count_cx :
    (interpOps (0, 0) (10, 0) true 10).length ≠
      interpSteps ((((10 : ℚ), (0 : ℚ)).1 - ((0 : ℚ), (0 : ℚ)).1) ^ 2 +
          (((10 : ℚ), (0 : ℚ)).2 - ((0 : ℚ), (0 : ℚ)).2) ^ 2)
        (10 * (4 / 10)) := by
  have e1 : (((10 : ℚ), (0 : ℚ)).1 - ((0 : ℚ), (0 : ℚ)).1) ^ 2 +
      (((10 : ℚ), (0 : ℚ)).2 - ((0 : ℚ), (0 : ℚ)).2) ^ 2 = (100 : ℚ) := by
    norm_num
  have e2 : (10 : ℚ) * (4 / 10) = 4 := by norm_num
  have hguard : ((10 : ℚ) * (4 / 10)) ^ 2 < (((10 : ℚ), (0 : ℚ)).1 - ((0 : ℚ), (0 : ℚ)).1) ^ 2 +
      (((10 : ℚ), (0 : ℚ)).2 - ((0 : ℚ), (0 : ℚ)).2) ^ 2 := by
    norm_num
  rw [interpOps, if_pos hguard, List.length_map, List.length_range, e1, e2]
  have e3 : interpSteps (100 : ℚ) 4 = 3 := by decide
  rw [e3]
  decide

/-- C6 (amended): during a gesture, for a new pointer sample whose
distance d from the last painted point exceeds step = radius · 0.4
(equivalently step² < d² over the nonnegative distance), the gap-filling
loop synthesizes exactly ceil(d / step) − 1 evenly-interpolated
intermediate operations (interpSteps being exactly that ceiling, by
interpSteps_least), in addition to the endpoint operation for the new
sample. -/
theorem interpOps_count (l p : ℚ × ℚ) (rv : Bool) (radius : ℚ)
    (h : (radius * (4 / 10)) ^ 2 < (p.1 - l.1) ^ 2 + (p.2 - l.2) ^ 2) :
    (interpOps l p rv radius).length =
      interpSteps ((p.1 - l.1) ^ 2 + (p.2 - l.2) ^ 2) (radius * (4 / 10)) - 1 ∧
    paintAtOps (some l) p rv radius =
      interpOps l p rv radius ++ [circleOp rv p.1 p.2 radius] := by
  constructor
  · rw [interpOps, if_pos h, List.length_map, List.length_range]
  · rfl

theorem paintAt_gap_guard_ex :
    ((10 : ℚ) * (4 / 10)) ^ 2 < ((((10 : ℚ), (0 : ℚ)) : ℚ × ℚ).1 - (((0 : ℚ), (0 : ℚ)) : ℚ × ℚ).1) ^ 2 +
      ((((10 : ℚ), (0 : ℚ)) : ℚ × ℚ).2 - (((0 : ℚ), (0 : ℚ)) : ℚ × ℚ).2) ^ 2 := by
  norm_num

theorem interpOps_count_witness :
    (interpOps (0, 0) (10, 0) true 10).length =
      interpSteps ((((10 : ℚ), (0 : ℚ)).1 - ((0 : ℚ), (0 : ℚ)).1) ^ 2 +
          (((10 : ℚ), (0 : ℚ)).2 - ((0 : ℚ), (0 : ℚ)).2) ^ 2)
        (10 * (4 / 10)) - 1 ∧
    paintAtOps (some (0, 0)) (10, 0) true 10 =
      interpOps (0, 0) (10, 0) true 10 ++ [circleOp true ((10 : ℚ), (0 : ℚ)).1 ((10 : ℚ), (0 : ℚ)).2 10] :=
  interpOps_count (0, 0) (10, 0) true 10 paintAt_gap_guard_ex

/-- C7: the drag gesture pointer-down at (0,0) followed by one
pointer-move sample at (100,0) with brush radius 10 (step 4) flushes, at
gesture end, a stroke buffer of exactly 26 operations: the two endpoint
operations plus exactly ceil(100/4) − 1 = 24 interpolated operations
synthesized between them. -/
theorem drag_gesture_flush_count :
    ((onPointerUp (onPointerMove
        (onPointerDown ⟨false, none, []⟩ ((0 : ℚ), (0 : ℚ)) true 10)
        ((100 : ℚ), (0 : ℚ)) true 10)).1).length = 26 ∧
    (interpOps ((0 : ℚ), (0 : ℚ)) ((100 : ℚ), (0 : ℚ)) true 10).length = 24 := by
  have e1 : ((((100 : ℚ), (0 : ℚ)) : ℚ × ℚ).1 - (((0 : ℚ), (0 : ℚ)) : ℚ × ℚ).1) ^ 2 +
      ((((100 : ℚ), (0 : ℚ)) : ℚ × ℚ).2 - (((0 : ℚ), (0 : ℚ)) : ℚ × ℚ).2) ^ 2 = (10000 : ℚ) := by
    norm_num
  have e2 : (10 : ℚ) * (4 / 10) = 4 := by norm_num
  have hguard : ((10 : ℚ) * (4 / 10)) ^ 2 <
      ((((100 : ℚ), (0 : ℚ)) : ℚ × ℚ).1 - (((0 : ℚ), (0 : ℚ)) : ℚ × ℚ).1) ^ 2 +
      ((((100 : ℚ), (0 : ℚ)) : ℚ × ℚ).2 - (((0 : ℚ), (0 : ℚ)) : ℚ × ℚ).2) ^ 2 := by
    norm_num
  have e3 : interpSteps (10000 : ℚ) 4 = 25 := by decide
  have hI : (interpOps ((0 : ℚ), (0 : ℚ)) ((100 : ℚ), (0 : ℚ)) true 10).length = 24 := by
    rw [interpOps, if_pos hguard, List.length_map, List.length_range, e1, e2, e3]
  refine ⟨?_, hI⟩
  show ((paintAt (paintAt ⟨true, none, []⟩ ((0 : ℚ), (0 : ℚ)) true 10)
      ((100 : ℚ), (0 : ℚ)) true 10).strokeBuffer).length = 26
  rw [paintAt, paintAt]
  simp only [List.length_append, paintAtOps, List.nil_append, List.length_cons,
    List.length_nil, hI]

end FogOfWar

